import Mathlib

/-!
Verification of the eventfd binding crate (`src/lib.rs`).

The crate is a thin wrapper around the Linux `eventfd` kernel counter:
`EventFD::new` calls `eventfd(initval: u32, flags)`, `read`/`write`
exchange an 8-byte native-order integer with the kernel, `Clone` calls
`dup(fd).unwrap()`, `Drop` calls `close(fd)`, and `events` spawns a
worker thread that loops `read` then `send` on a capacity-1 channel.

The kernel counter primitive itself is not part of the crate; its
semantics (blocking, semaphore mode, overflow policy) are modelled from
the specification, and those definitions say so in their doc comments.
Everything else is translated from the Rust source.
-/

namespace EventFdSpec

/-- Creation flags of an eventfd: the crate re-exports `EfdFlags`
(`EFD_SEMAPHORE`, `EFD_NONBLOCK`). -/
structure EfdFlags where
  semaphore : Bool
  nonblock : Bool
deriving DecidableEq, Repr

/-- No flags (`EfdFlags::empty()` / the spec's `NONE`). -/
def flagsNone : EfdFlags := ⟨false, false⟩

/-- The flag set `SEMAPHORE | NONBLOCKING` (`EFD_SEMAPHORE | EFD_NONBLOCK`). -/
def flagsSemNonblock : EfdFlags := ⟨true, true⟩

/-- The largest value a `u64` can hold, `2^64 - 1`.  The eventfd counter
itself is kept strictly below this by the kernel. -/
def U64MAX : Nat := 2 ^ 64 - 1

/-- A kernel eventfd counter object: the 64-bit counter value together
with the file-status flags fixed at creation. -/
structure Counter where
  count : Nat
  flags : EfdFlags
deriving DecidableEq, Repr

/-- The counter range invariant from the spec: `[0, 2^64 - 2]`. -/
def Counter.valid (c : Counter) : Prop := c.count ≤ U64MAX - 1

instance (c : Counter) : Decidable c.valid := by
  unfold Counter.valid; infer_instance

/-- Outcome of a `read` on the kernel counter, as seen by the caller of
`EventFD::read`: a returned value together with the counter left behind,
an immediate `WouldBlock` failure, or suspension of the calling thread. -/
inductive ReadOutcome
  | ok (v : Nat) (next : Nat)
  | wouldBlock
  | blocks
deriving DecidableEq, Repr

/-- Outcome of a `write` on the kernel counter. -/
inductive WriteOutcome
  | ok (next : Nat)
  | wouldBlock
  | blocks
deriving DecidableEq, Repr

/-- Modelled from the spec: the kernel's read semantics for an eventfd
counter (the counter primitive lives in the kernel, outside this crate).
If the counter is zero the call blocks, or fails with `WouldBlock` when
NONBLOCKING was set at creation.  In semaphore mode it decrements by 1
and returns 1; otherwise it returns the whole value and resets the
counter to zero.  `EventFD::read` (src/lib.rs:58-63) forwards this
outcome, decoding the 8 bytes the kernel wrote. -/
def counterRead (c : Counter) : ReadOutcome :=
  if c.count = 0 then
    if c.flags.nonblock then .wouldBlock else .blocks
  else if c.flags.semaphore then .ok 1 (c.count - 1)
  else .ok c.count 0

/-- Modelled from the spec: the kernel's write semantics for an eventfd
counter.  Adding `delta` succeeds when the result stays at most
`2^64 - 2`; a write that would make the counter reach `2^64 - 1` or wrap
blocks, or fails with `WouldBlock` when NONBLOCKING was set.
`EventFD::write` (src/lib.rs:66-70) forwards this outcome, encoding
`delta` as the 8 bytes handed to the kernel. -/
def counterWrite (c : Counter) (delta : Nat) : WriteOutcome :=
  if U64MAX ≤ c.count + delta then
    if c.flags.nonblock then .wouldBlock else .blocks
  else .ok (c.count + delta)

/-- The constructor `EventFD::new(initval: u32, flags)`
(src/lib.rs:47-52): allocates a
kernel counter initialised to `initval`.  The Rust parameter type of the
initial value is `u32`, so only values below `2^32` can be passed at
all; values outside that range are not accepted by the constructor,
which the embedding records by returning `none`. -/
def efdNew (initval : Nat) (flags : EfdFlags) : Option Counter :=
  if initval < 2 ^ 32 then some ⟨initval, flags⟩ else none

/-- One counter operation, for stating invariants over sequences. -/
inductive Op
  | rd
  | wr (delta : Nat)
deriving DecidableEq, Repr

/-- The counter after one operation: a read or write that completes
updates the counter; one that blocks or fails leaves it unchanged. -/
def stepCounter (c : Counter) (op : Op) : Counter :=
  match op with
  | .rd =>
    match counterRead c with
    | .ok _ next => ⟨next, c.flags⟩
    | _ => c
  | .wr d =>
    match counterWrite c d with
    | .ok next => ⟨next, c.flags⟩
    | _ => c

/-- The counter after a sequence of operations. -/
def runOps (c : Counter) : List Op → Counter
  | [] => c
  | op :: rest => runOps (stepCounter c op) rest

/-- The scenario of claim C3: `create(0, NONE)`, `write(a)`, `write(b)`,
then `read()`.  Returns the outcome of the final read; a `write` that
does not complete surfaces as that write's outcome mapped into
`ReadOutcome` (blocks/would-block), which does not happen under the
claim's bound on `a + b`. -/
def scenarioWWR (a b : Nat) : ReadOutcome :=
  match efdNew 0 flagsNone with
  | none => .blocks
  | some c0 =>
    match counterWrite c0 a with
    | .ok n1 =>
      match counterWrite ⟨n1, c0.flags⟩ b with
      | .ok n2 => counterRead ⟨n2, c0.flags⟩
      | .wouldBlock => .wouldBlock
      | .blocks => .blocks
    | .wouldBlock => .wouldBlock
    | .blocks => .blocks

/-- The crate's handle type: `struct EventFD { fd: RawFd, flags: EfdFlags }`
(src/lib.rs:18-21). -/
structure EventFD where
  fd : Nat
  flags : EfdFlags
deriving DecidableEq, Repr

/-- The process descriptor table, as far as eventfd handles are
concerned: each open descriptor maps to the identifier of the kernel
counter object it references, and `nextFd` is the fresh descriptor the
kernel hands out next. -/
structure FdTable where
  entries : List (Nat × Nat)
  nextFd : Nat
deriving Repr

/-- Well-formedness of the table: every open descriptor is below the
next fresh one, so freshly allocated descriptors are genuinely new. -/
def FdTable.wf (t : FdTable) : Prop :=
  ∀ p ∈ t.entries, p.1 < t.nextFd

/-- Modelled from the spec: `dup(fd)` (the kernel call used by the
crate's `Clone` impl).  On an open descriptor it allocates a fresh
descriptor referencing the identical kernel object; on a closed or
invalid descriptor it fails, which the embedding records as `none`. -/
def dupFd (t : FdTable) (fd : Nat) : Option (FdTable × Nat) :=
  match t.entries.lookup fd with
  | some obj => some (⟨(t.nextFd, obj) :: t.entries, t.nextFd + 1⟩, t.nextFd)
  | none => none

/-- Modelled from the spec: `close(fd)` removes exactly the entry of
`fd` from the descriptor table, leaving every other descriptor intact.
`Drop for EventFD` (src/lib.rs:109-113) calls this on the handle's own
descriptor. -/
def closeFd (t : FdTable) (fd : Nat) : FdTable :=
  ⟨t.entries.filter (fun p => p.1 != fd), t.nextFd⟩

/-- Result of `Clone for EventFD` (src/lib.rs:118-125): the source runs
`dup(self.fd).unwrap()`, so a failed `dup` does not produce an error
value but a panic. -/
inductive CloneResult
  | ok (e : EventFD) (t : FdTable)
  | panicked
deriving Repr

/-- The impl `Clone for EventFD` (src/lib.rs:118-125):
`EventFD { fd: dup(self.fd).unwrap(), flags: self.flags }`.  On `dup`
success the new handle carries the fresh descriptor and copied flags;
on `dup` failure the `.unwrap()` panics. -/
def efdClone (t : FdTable) (e : EventFD) : CloneResult :=
  match dupFd t e.fd with
  | some (t2, newFd) => .ok ⟨newFd, e.flags⟩ t2
  | none => .panicked

/-- A system state tying descriptors to live kernel counter objects, to
express that sibling handles keep their access to the shared counter. -/
structure Sys where
  table : FdTable
  objs : List (Nat × Counter)

/-- A read issued through a descriptor: resolve the descriptor to its
kernel object, then apply the kernel read semantics; `none` when the
descriptor is not open. -/
def readVia (s : Sys) (fd : Nat) : Option ReadOutcome :=
  match s.table.entries.lookup fd with
  | some o => (s.objs.lookup o).map counterRead
  | none => none

/-- A write issued through a descriptor, analogously. -/
def writeVia (s : Sys) (fd : Nat) (delta : Nat) : Option WriteOutcome :=
  match s.table.entries.lookup fd with
  | some o => (s.objs.lookup o).map (fun c => counterWrite c delta)
  | none => none

/-- The error type the worker loop distinguishes: `io::Error` whose kind
either is `WouldBlock` or anything else. -/
inductive IoErr
  | wouldBlock
  | other
deriving DecidableEq, Repr

/-- What one iteration of the `events()` worker loop does
(src/lib.rs:87-95) given the result of `c.read()` and whether the
consumer end of the capacity-1 channel is still alive when the push is
attempted: on `Ok(v)` it sends, continuing on success and breaking out
of the loop when the send fails (receiver dropped); on any `Err(e)` it
panics. -/
inductive StepOut
  | next
  | exit
  | panicked (e : IoErr)
deriving DecidableEq, Repr

/-- One iteration of the worker loop of `EventFD::events`
(src/lib.rs:87-95), translated clause by clause from the `match`. -/
def workerStep (r : Except IoErr Nat) (consumerAlive : Bool) : StepOut :=
  match r with
  | .ok _ => if consumerAlive then .next else .exit
  | .error e => .panicked e

/-- Result of running the worker loop over a finite trace of iteration
inputs: the loop either breaks cleanly (`exited`), dies in a panic, or
is still looping when the trace runs out (`running`). -/
inductive RunOut
  | exited
  | panicked (e : IoErr)
  | running
deriving DecidableEq, Repr

/-- Run the worker loop of `EventFD::events` over a finite trace, each
element giving that iteration's read result and whether the consumer is
alive at the push attempt. -/
def workerRun : List (Except IoErr Nat × Bool) → RunOut
  | [] => .running
  | (r, alive) :: rest =>
    match workerStep r alive with
    | .next => workerRun rest
    | .exit => .exited
    | .panicked e => .panicked e

/-- The byte-level decoding of `EventFD::read` (src/lib.rs:59-61) and
encoding of `EventFD::write` (src/lib.rs:67): both are a native-order
bit-pattern conversion between `u64` and `[u8; 8]`; on the crate's
targets this is the little-endian byte order, least significant byte
first.  `toBytes n v` produces the `n` low-order bytes of `v`. -/
def toBytes : Nat → Nat → List Nat
  | 0, _ => []
  | n + 1, v => v % 256 :: toBytes n (v / 256)

/-- The inverse conversion: reassemble a little-endian byte list into
the integer it encodes. -/
def fromBytes : List Nat → Nat
  | [] => 0
  | b :: rest => b + 256 * fromBytes rest

/-! Helper lemmas shared by the claim theorems. -/

theorem U64MAX_eq : U64MAX = 18446744073709551615 := by
  unfold U64MAX; norm_num

theorem counterWrite_ok (c : Counter) (d : Nat) (h : c.count + d < U64MAX) :
    counterWrite c d = WriteOutcome.ok (c.count + d) := by
  unfold counterWrite
  rw [if_neg (by omega)]

theorem counterRead_next_le (c : Counter) (v next : Nat)
    (h : counterRead c = ReadOutcome.ok v next) : next ≤ c.count := by
  unfold counterRead at h
  split at h
  · split at h <;> cases h
  · split at h
    · cases h; omega
    · cases h; omega

theorem counterWrite_next (c : Counter) (d next : Nat)
    (h : counterWrite c d = WriteOutcome.ok next) :
    next = c.count + d ∧ c.count + d < U64MAX := by
  unfold counterWrite at h
  split at h
  · split at h <;> cases h
  · cases h
    omega

theorem counterRead_drain (c : Counter) (hs : c.flags.semaphore = false)
    (hc : c.count ≠ 0) : counterRead c = ReadOutcome.ok c.count 0 := by
  unfold counterRead
  rw [if_neg hc, if_neg (by simp [hs])]

theorem stepCounter_valid (c : Counter) (op : Op) (h : c.valid) :
    (stepCounter c op).valid := by
  unfold Counter.valid at h ⊢
  cases op with
  | rd =>
    cases hr : counterRead c with
    | ok v next =>
      have hle := counterRead_next_le c v next hr
      simp only [stepCounter, hr]
      omega
    | wouldBlock => simpa only [stepCounter, hr] using h
    | blocks => simpa only [stepCounter, hr] using h
  | wr d =>
    cases hw : counterWrite c d with
    | ok next =>
      have hn := counterWrite_next c d next hw
      simp only [stepCounter, hw]
      omega
    | wouldBlock => simpa only [stepCounter, hw] using h
    | blocks => simpa only [stepCounter, hw] using h

theorem lookup_mem (l : List (Nat × Nat)) (k v : Nat)
    (h : l.lookup k = some v) : (k, v) ∈ l := by
  induction l with
  | nil => cases h
  | cons p rest ih =>
    rw [List.lookup] at h
    split at h
    · cases h
      rename_i heq
      simp only [beq_iff_eq] at heq
      subst heq
      exact List.mem_cons_self _ _
    · exact List.mem_cons_of_mem _ (ih h)

theorem lookup_filter_ne (l : List (Nat × Nat)) (fd fd2 : Nat) (h : fd2 ≠ fd) :
    (l.filter (fun p => p.1 != fd)).lookup fd2 = l.lookup fd2 := by
  induction l with
  | nil => rfl
  | cons p rest ih =>
    rcases p with ⟨k, v⟩
    by_cases hp : k = fd
    · subst hp
      simp only [List.filter_cons, List.lookup, bne_self_eq_false,
        Bool.false_eq_true, if_false, ih]
      rw [show (fd2 == k) = false from by simp [h]]
    · by_cases hk : fd2 = k
      · subst hk
        simp [List.filter_cons, List.lookup, hp]
      · simp only [List.filter_cons, List.lookup]
        rw [show (k != fd) = true from by simp [hp], if_pos rfl]
        simp only [List.lookup]
        rw [show (fd2 == k) = false from by simp [hk]]
        exact ih

theorem lookup_filter_self (l : List (Nat × Nat)) (fd : Nat) :
    (l.filter (fun p => p.1 != fd)).lookup fd = none := by
  induction l with
  | nil => rfl
  | cons p rest ih =>
    rcases p with ⟨k, v⟩
    by_cases hp : k = fd
    · subst hp
      simp [List.filter_cons, ih]
    · simp only [List.filter_cons, List.lookup]
      rw [show (k != fd) = true from by simp [hp], if_pos rfl]
      simp only [List.lookup]
      rw [show (fd == k) = false from by simp [Ne.symm hp]]
      exact ih

theorem bytes_roundtrip_pow (n v : Nat) :
    fromBytes (toBytes n v) = v % 256 ^ n := by
  induction n generalizing v with
  | zero => simp [toBytes, fromBytes, Nat.mod_one]
  | succ n ih =>
    rw [toBytes, fromBytes, ih]
    rw [pow_succ', Nat.mod_mul]

/-! Claim theorems. -/

/-- C1: for a handle created without SEMAPHORE mode whose counter holds a
non-zero value `c`, `read()` atomically fetches `c`, resets the counter
to zero, and returns `Ok(c)`. -/
theorem read_nonsema_fetches_and_zeroes (c : Counter)
    (hs : c.flags.semaphore = false) (hc : c.count ≠ 0) :
    counterRead c = ReadOutcome.ok c.count 0 :=
  counterRead_drain c hs hc

/-- Witness for C1 at a counter holding 5 with no flags. -/
theorem read_nonsema_fetches_and_zeroes_witness :
    counterRead ⟨5, flagsNone⟩ = ReadOutcome.ok 5 0 :=
  read_nonsema_fetches_and_zeroes ⟨5, flagsNone⟩ (by decide) (by decide)

/-- C2: on a handle from `create(0, SEMAPHORE|NONBLOCKING)`, a `read()`
before any write fails with `WouldBlock`; after `write(5)` each of the
next five `read()` calls returns `Ok(1)` decrementing the counter by 1,
and a sixth `read()` fails with `WouldBlock`. -/
theorem sema_nonblock_scenario :
    efdNew 0 flagsSemNonblock = some ⟨0, flagsSemNonblock⟩ ∧
    counterRead ⟨0, flagsSemNonblock⟩ = ReadOutcome.wouldBlock ∧
    counterWrite ⟨0, flagsSemNonblock⟩ 5 = WriteOutcome.ok 5 ∧
    counterRead ⟨5, flagsSemNonblock⟩ = ReadOutcome.ok 1 4 ∧
    counterRead ⟨4, flagsSemNonblock⟩ = ReadOutcome.ok 1 3 ∧
    counterRead ⟨3, flagsSemNonblock⟩ = ReadOutcome.ok 1 2 ∧
    counterRead ⟨2, flagsSemNonblock⟩ = ReadOutcome.ok 1 1 ∧
    counterRead ⟨1, flagsSemNonblock⟩ = ReadOutcome.ok 1 0 ∧
    counterRead ⟨0, flagsSemNonblock⟩ = ReadOutcome.wouldBlock := by
  refine ⟨?_, ?_, ?_, ?_, ?_, ?_, ?_, ?_, ?_⟩ <;> decide

/-- Counterexample for C3: at `a = 0, b = 0` the final `read()` of the
scenario `create(0, NONE); write(a); write(b); read()` suspends the
calling thread (the counter is zero and the handle is blocking), so it
does not return `Ok(a + b) = Ok(0)` as the claim states. -/
theorem wwr_zero_blocks :
    scenarioWWR 0 0 = ReadOutcome.blocks ∧
    scenarioWWR 0 0 ≠ ReadOutcome.ok 0 0 := by
  refine ⟨?_, ?_⟩ <;> decide

/-- C3 (amended): for all `a` and `b` with `a + b` positive and below
`2^64 - 1`, on a handle from `create(0, NONE)`, `write(a)` then
`write(b)` then `read()` returns `Ok(a + b)` — the writes coalesce
additively into the single counter. -/
theorem wwr_adds (a b : Nat) (hpos : 0 < a + b) (hlt : a + b < U64MAX) :
    scenarioWWR a b = ReadOutcome.ok (a + b) 0 := by
  have h0 : efdNew 0 flagsNone = some ⟨0, flagsNone⟩ := by decide
  have h1 : counterWrite ⟨0, flagsNone⟩ a = WriteOutcome.ok a := by
    have hh := counterWrite_ok ⟨0, flagsNone⟩ a (by show 0 + a < U64MAX; omega)
    simpa using hh
  have h2 : counterWrite ⟨a, flagsNone⟩ b = WriteOutcome.ok (a + b) :=
    counterWrite_ok ⟨a, flagsNone⟩ b (by show a + b < U64MAX; omega)
  have h3 : counterRead ⟨a + b, flagsNone⟩ = ReadOutcome.ok (a + b) 0 :=
    counterRead_drain ⟨a + b, flagsNone⟩ rfl (by show a + b ≠ 0; omega)
  unfold scenarioWWR
  rw [h0]
  simp only [h1, h2, h3]

/-- Witness for C3 (amended) at `a = 3, b = 4`. -/
theorem wwr_adds_witness :
    0 < 3 + 4 ∧ 3 + 4 < U64MAX ∧ scenarioWWR 3 4 = ReadOutcome.ok 7 0 :=
  ⟨by norm_num, by rw [U64MAX_eq]; norm_num,
    wwr_adds 3 4 (by norm_num) (by rw [U64MAX_eq]; norm_num)⟩

/-- Counterexample for C4: the constructor `EventFD::new` takes its
initial value as a `u32`, so `create(2^32, NONE)` is not accepted — the
claim's "full u64 range" fails at `v = 2^32`. -/
theorem new_rejects_beyond_u32 : efdNew (2 ^ 32) flagsNone = none := by
  decide

/-- C4 (amended): the constructor accepts initial values only in the u32
range; for every `v < 2^32`, `create(v, NONE)` allocates a counter
initialised to `v`, and when `v` is non-zero an immediately following
`read()` returns exactly `v`. -/
theorem new_then_read_returns_initval (v : Nat) (hv : v < 2 ^ 32)
    (hpos : 0 < v) :
    efdNew v flagsNone = some ⟨v, flagsNone⟩ ∧
    counterRead ⟨v, flagsNone⟩ = ReadOutcome.ok v 0 := by
  refine ⟨?_, ?_⟩
  · unfold efdNew
    rw [if_pos hv]
  · exact counterRead_drain _ rfl (by show v ≠ 0; omega)

/-- Witness for C4 (amended) at `v = 10`. -/
theorem new_then_read_returns_initval_witness :
    efdNew 10 flagsNone = some ⟨10, flagsNone⟩ ∧
    counterRead ⟨10, flagsNone⟩ = ReadOutcome.ok 10 0 :=
  new_then_read_returns_initval 10 (by norm_num) (by norm_num)

/-- C5: starting from any counter in the range `[0, 2^64 - 2]`, no
sequence of read and write operations ever leaves the counter outside
that range: a write that would push it to `2^64 - 1` or beyond blocks or
fails with `WouldBlock` instead of completing. -/
theorem counter_stays_in_range (c : Counter) (ops : List Op)
    (h : c.valid) : (runOps c ops).valid := by
  induction ops generalizing c with
  | nil => exact h
  | cons op rest ih => exact ih _ (stepCounter_valid c op h)

/-- Witness for C5: a concrete run from counter 10. -/
theorem counter_stays_in_range_witness :
    (runOps ⟨10, flagsNone⟩ [Op.wr 5, Op.rd, Op.wr 3]).valid :=
  counter_stays_in_range ⟨10, flagsNone⟩ [Op.wr 5, Op.rd, Op.wr 3]
    (by decide)

/-- Counterexample for C6: on a descriptor table in which the handle's
descriptor is not open, the kernel `dup` call fails, and the crate's
`Clone` impl (`dup(self.fd).unwrap()`) panics instead of returning an
`IoError` value — `clone` returns a bare `EventFD`, not a `Result`, so
no error can be surfaced synchronously. -/
theorem clone_panics_on_dup_failure :
    efdClone ⟨[], 0⟩ ⟨0, flagsNone⟩ = CloneResult.panicked := rfl

/-- C6 (amended): `clone` panics via `unwrap` when the kernel `dup` call
fails; on success the new handle carries a fresh descriptor referencing
the identical kernel counter object as the source handle, with the
flags copied. -/
theorem clone_shares_object (t : FdTable) (e : EventFD) (obj : Nat)
    (hl : t.entries.lookup e.fd = some obj) :
    efdClone t e = CloneResult.ok ⟨t.nextFd, e.flags⟩
      ⟨(t.nextFd, obj) :: t.entries, t.nextFd + 1⟩ ∧
    ((t.nextFd, obj) :: t.entries).lookup t.nextFd = some obj := by
  constructor
  · unfold efdClone dupFd
    rw [hl]
  · simp [List.lookup]

/-- Witness for C6 (amended): cloning the handle of descriptor 3 in a
table where it references object 7. -/
theorem clone_shares_object_witness :
    efdClone ⟨[(3, 7)], 4⟩ ⟨3, flagsNone⟩ = CloneResult.ok ⟨4, flagsNone⟩
      ⟨[(4, 7), (3, 7)], 5⟩ ∧
    ([(4, 7), (3, 7)] : List (Nat × Nat)).lookup 4 = some 7 :=
  clone_shares_object ⟨[(3, 7)], 4⟩ ⟨3, flagsNone⟩ 7 rfl

/-- C7: after `h2 = clone(h1)` (so `h2` holds the fresh descriptor
`t.nextFd` and the post-clone table is
`⟨(t.nextFd, obj) :: t.entries, t.nextFd + 1⟩`), dropping either handle
closes only that handle's own descriptor: after closing `h1`, its own
descriptor is gone while `h2`'s still resolves to the shared object and
reads and writes through `h2` still reach the shared counter; after
closing `h2` instead, `h1`'s descriptor likewise still resolves. -/
theorem drop_closes_only_own_fd (t : FdTable) (e : EventFD) (obj : Nat)
    (objs : List (Nat × Counter)) (hw : t.wf)
    (hl : t.entries.lookup e.fd = some obj) :
    e.fd ≠ t.nextFd ∧
    (closeFd ⟨(t.nextFd, obj) :: t.entries, t.nextFd + 1⟩ e.fd).entries.lookup
        t.nextFd = some obj ∧
    (closeFd ⟨(t.nextFd, obj) :: t.entries, t.nextFd + 1⟩ e.fd).entries.lookup
        e.fd = none ∧
    (closeFd ⟨(t.nextFd, obj) :: t.entries, t.nextFd + 1⟩ t.nextFd).entries.lookup
        e.fd = some obj ∧
    readVia ⟨closeFd ⟨(t.nextFd, obj) :: t.entries, t.nextFd + 1⟩ e.fd, objs⟩
        t.nextFd = (objs.lookup obj).map counterRead ∧
    writeVia ⟨closeFd ⟨(t.nextFd, obj) :: t.entries, t.nextFd + 1⟩ e.fd, objs⟩
        t.nextFd 1 = (objs.lookup obj).map (fun c => counterWrite c 1) := by
  have hmem := lookup_mem t.entries e.fd obj hl
  have hne : e.fd ≠ t.nextFd := by
    have := hw _ hmem
    omega
  have hhead : ((t.nextFd, obj) :: t.entries).lookup t.nextFd = some obj := by
    simp [List.lookup]
  have hcons : ((t.nextFd, obj) :: t.entries).lookup e.fd = some obj := by
    rw [List.lookup]
    rw [show (e.fd == t.nextFd) = false from by simp [hne]]
    exact hl
  have h2 : (closeFd ⟨(t.nextFd, obj) :: t.entries, t.nextFd + 1⟩
      e.fd).entries.lookup t.nextFd = some obj := by
    unfold closeFd
    rw [lookup_filter_ne _ _ _ (Ne.symm hne)]
    exact hhead
  refine ⟨hne, h2, ?_, ?_, ?_, ?_⟩
  · unfold closeFd
    exact lookup_filter_self _ _
  · unfold closeFd
    rw [lookup_filter_ne _ _ _ hne]
    exact hcons
  · unfold readVia
    rw [h2]
  · unfold writeVia
    rw [h2]

/-- Witness for C7: descriptor 3 references object 0 holding counter 2;
its clone gets descriptor 4, and closing either leaves the other's view
of the counter intact. -/
theorem drop_closes_only_own_fd_witness :
    (3 : Nat) ≠ 4 ∧
    (closeFd ⟨[(4, 0), (3, 0)], 5⟩ 3).entries.lookup 4 = some 0 ∧
    (closeFd ⟨[(4, 0), (3, 0)], 5⟩ 3).entries.lookup 3 = none ∧
    (closeFd ⟨[(4, 0), (3, 0)], 5⟩ 4).entries.lookup 3 = some 0 ∧
    readVia ⟨closeFd ⟨[(4, 0), (3, 0)], 5⟩ 3, [(0, ⟨2, flagsNone⟩)]⟩ 4 =
      (([(0, ⟨2, flagsNone⟩)] : List (Nat × Counter)).lookup 0).map counterRead ∧
    writeVia ⟨closeFd ⟨[(4, 0), (3, 0)], 5⟩ 3, [(0, ⟨2, flagsNone⟩)]⟩ 4 1 =
      (([(0, ⟨2, flagsNone⟩)] : List (Nat × Counter)).lookup 0).map
        (fun c => counterWrite c 1) :=
  drop_closes_only_own_fd ⟨[(3, 0)], 4⟩ ⟨3, flagsNone⟩ 0
    [(0, ⟨2, flagsNone⟩)]
    (by intro p hp; rw [List.mem_singleton] at hp; rw [hp]; norm_num) rfl

/-- C8: over any finite trace of worker-loop iterations, the loop of the
`events()` worker exits (reaches its `break`) exactly when the trace
contains an iteration whose push fails because the consumer was dropped
— a completed read followed by a dead consumer — with every iteration
before it a successful read-and-push: the worker never exits merely
because the consumer stops polling, and it exits at the first push
attempt after consumer shutdown, after the in-flight read returns. -/
theorem worker_exits_iff_push_fails (tr : List (Except IoErr Nat × Bool)) :
    workerRun tr = RunOut.exited ↔
      ∃ pre v rest, tr = pre ++ (Except.ok v, false) :: rest ∧
        ∀ p ∈ pre, workerStep p.1 p.2 = StepOut.next := by
  induction tr with
  | nil =>
    apply iff_of_false
    · intro hcon
      cases hcon
    · rintro ⟨pre, v, rest, htr, -⟩
      exact (List.cons_ne_nil _ _) (List.append_eq_nil.mp htr.symm).2
  | cons hd tl ih =>
    obtain ⟨r, alive⟩ := hd
    cases hstep : workerStep r alive with
    | next =>
      have hrun : workerRun ((r, alive) :: tl) = workerRun tl := by
        rw [workerRun, hstep]
      rw [hrun, ih]
      constructor
      · rintro ⟨pre, v, rest, htl, hpre⟩
        refine ⟨(r, alive) :: pre, v, rest, by rw [htl]; rfl, ?_⟩
        intro p hp
        rcases List.mem_cons.mp hp with hph | hpt
        · rw [hph]
          exact hstep
        · exact hpre p hpt
      · rintro ⟨pre, v, rest, htr, hpre⟩
        cases pre with
        | nil =>
          rw [List.nil_append] at htr
          obtain ⟨hhd, htl⟩ := List.cons_eq_cons.mp htr
          obtain ⟨hr, ha⟩ := Prod.mk.injEq .. ▸ hhd
          rw [hr, ha] at hstep
          cases hstep
        | cons q pre' =>
          rw [List.cons_append] at htr
          obtain ⟨hq, htl⟩ := List.cons_eq_cons.mp htr
          exact ⟨pre', v, rest, htl,
            fun p hp => hpre p (List.mem_cons_of_mem q hp)⟩
    | exit =>
      have hok : ∃ w, r = Except.ok w ∧ alive = false := by
        cases r with
        | ok w =>
          cases alive with
          | true => rw [workerStep] at hstep; cases hstep
          | false => exact ⟨w, rfl, rfl⟩
        | error e => rw [workerStep] at hstep; cases hstep
      obtain ⟨w, hr, ha⟩ := hok
      have hrun : workerRun ((r, alive) :: tl) = RunOut.exited := by
        rw [workerRun, hstep]
      rw [hrun]
      refine iff_of_true rfl ⟨[], w, tl, ?_, by intro p hp; cases hp⟩
      rw [hr, ha, List.nil_append]
    | panicked e =>
      have hrun : workerRun ((r, alive) :: tl) = RunOut.panicked e := by
        rw [workerRun, hstep]
      rw [hrun]
      apply iff_of_false
      · intro hcon
        cases hcon
      · rintro ⟨pre, v, rest, htr, hpre⟩
        cases pre with
        | nil =>
          rw [List.nil_append] at htr
          obtain ⟨hhd, -⟩ := List.cons_eq_cons.mp htr
          obtain ⟨hr, ha⟩ := Prod.mk.injEq .. ▸ hhd
          rw [hr, ha] at hstep
          cases hstep
        | cons q pre' =>
          rw [List.cons_append] at htr
          obtain ⟨hq, -⟩ := List.cons_eq_cons.mp htr
          have hq2 := hpre q (List.mem_cons_self q pre')
          rw [← hq] at hq2
          dsimp only at hq2
          rw [hstep] at hq2
          cases hq2

/-- C9: when the `read()` inside the `events()` worker loop fails with an
`IoError` other than `WouldBlock`, the worker's behavior is
`panic!("read failed: ...")` — aborting the worker rather than sending
the error to the consumer or breaking out of the loop cleanly. -/
theorem worker_panics_on_fatal_read (e : IoErr) (alive : Bool)
    (h : e ≠ IoErr.wouldBlock) :
    workerStep (Except.error e) alive = StepOut.panicked e ∧
    StepOut.panicked e ≠ StepOut.next ∧
    StepOut.panicked e ≠ StepOut.exit := by
  refine ⟨rfl, ?_, ?_⟩ <;> intro hcon <;> cases hcon

/-- Witness for C9 at the non-WouldBlock error with the consumer alive. -/
theorem worker_panics_on_fatal_read_witness :
    workerStep (Except.error IoErr.other) true = StepOut.panicked IoErr.other ∧
    StepOut.panicked IoErr.other ≠ StepOut.next ∧
    StepOut.panicked IoErr.other ≠ StepOut.exit :=
  worker_panics_on_fatal_read IoErr.other true (by intro h; cases h)

/-- C10: decoding an 8-byte buffer the way `read()` does, applied to the
buffer `write()` encodes a value into, returns that value: the two
native-byte-order conversions form a round-trip identity on the full
u64 range. -/
theorem write_read_byte_roundtrip (v : Nat) (hv : v < 2 ^ 64) :
    fromBytes (toBytes 8 v) = v := by
  have h8 : fromBytes (toBytes 8 v) = v % 256 ^ 8 := bytes_roundtrip_pow 8 v
  have h256 : (256 : Nat) ^ 8 = 2 ^ 64 := by norm_num
  rw [h8, h256]
  exact Nat.mod_eq_of_lt hv

/-- Witness for C10 at `v = 74565`. -/
theorem write_read_byte_roundtrip_witness :
    74565 < 2 ^ 64 ∧ fromBytes (toBytes 8 74565) = 74565 :=
  ⟨by norm_num, write_read_byte_roundtrip 74565 (by norm_num)⟩

end EventFdSpec
